import Mathlib

/-!
Shallow embedding of `src/components/frontend_react/src/scripts/translate.bun.ts`,
the locale-synchronization script of this repository.

A persisted locale file holds a JSON object mapping phrase keys to phrase
text; we embed such an object as an association list in insertion order
(`Mapping`).  JS object reads, property assignment and `delete` become
`lookupMap`, `setKey` and `eraseKey`.  The external translation capability
(`translateClient.translate`) is a parameter
`tr : String → String → String → Option String` taking the source text, the
source language code and the target language code; `none` models a rejected
promise (provider or network error).  Every translate invocation issued by the
script is additionally recorded in a call log (a `List Call`) so that
claims about which calls are made are statable.
-/

namespace TranslateBun

/-- A phrase mapping: the parsed content of one locale JSON file, in
insertion order. -/
abbrev Mapping := List (String × String)

/-- The argument triple of one call to the translation capability:
(text, source language code, target language code). -/
abbrev Call := String × String × String

/-- `Object.keys`: the keys of a mapping in insertion order. -/
def keys (m : Mapping) : List String := m.map Prod.fst

/-- JS property read `obj[k]`: the value stored at `k`, if any. -/
def lookupMap (m : Mapping) (k : String) : Option String :=
  match m with
  | [] => none
  | (k₁, v) :: rest => if k₁ = k then some v else lookupMap rest k

/-- JS property assignment `obj[k] = v`: update in place when the key is
present, otherwise append at the end. -/
def setKey (m : Mapping) (k v : String) : Mapping :=
  match m with
  | [] => [(k, v)]
  | (k₁, v₁) :: rest => if k₁ = k then (k₁, v) :: rest else (k₁, v₁) :: setKey rest k v

/-- JS `delete obj[k]`: remove the property named `k` (keys of a parsed JSON
object are unique, so removing the first occurrence is exact). -/
def eraseKey (m : Mapping) (k : String) : Mapping :=
  match m with
  | [] => []
  | (k₁, v₁) :: rest => if k₁ = k then rest else (k₁, v₁) :: eraseKey rest k

/-- First-occurrence deduplication, as performed by ramda list-set
operations (the head is kept and every later equal element is dropped). -/
def dedupFirst : List String → List String
  | [] => []
  | x :: xs => x :: (dedupFirst xs).filter (fun y => y ≠ x)

/-- ramda `difference(xs, ys)`: the set (no duplicates) of elements of `xs`
not contained in `ys`, in first-occurrence order. -/
def difference (xs ys : List String) : List String :=
  dedupFirst (xs.filter (fun x => decide (x ∉ ys)))

/-- The character class matched by the JS regex `\s` (ECMAScript WhiteSpace
plus LineTerminator). -/
def isJsWhitespace (c : Char) : Bool :=
  c == '\t' || c == '\n' || c == '\x0b' || c == '\x0c' || c == '\r' || c == ' ' ||
  c.toNat == 0x00A0 || c.toNat == 0x1680 ||
  (0x2000 ≤ c.toNat && c.toNat ≤ 0x200A) ||
  c.toNat == 0x2028 || c.toNat == 0x2029 || c.toNat == 0x202F ||
  c.toNat == 0x205F || c.toNat == 0x3000 || c.toNat == 0xFEFF

/-- `String.prototype.replaceAll(/\>\s/g, ">")` on the character list: scan
left to right; on a match of a right-angle-bracket followed by one whitespace
character, emit the bracket alone and resume after the matched pair. -/
def collapseGt : List Char → List Char
  | [] => []
  | [c] => [c]
  | c₁ :: c₂ :: rest =>
    if c₁ == '>' && isJsWhitespace c₂ then c₁ :: collapseGt rest
    else c₁ :: collapseGt (c₂ :: rest)

/-- `translation.replaceAll(/\>\s/g, ">")` as a function on strings. -/
def replaceGtWs (s : String) : String := ⟨collapseGt s.data⟩

/-- Whether the character list contains an occurrence of `a` immediately
followed by `b`. -/
def containsSeq2 (a b : Char) : List Char → Bool
  | [] => false
  | [_] => false
  | c₁ :: c₂ :: rest =>
    if c₁ == a && c₂ == b then true else containsSeq2 a b (c₂ :: rest)

/-- Whether the string contains the two-character sequence `"> "`
(right-angle-bracket followed by a single space). -/
def containsGtSpace (s : String) : Bool := containsSeq2 '>' ' ' s.data

/-- Whether the character list contains a right-angle-bracket immediately
followed by any character of the JS `\s` class. -/
def containsGtWs : List Char → Bool
  | [] => false
  | [_] => false
  | c₁ :: c₂ :: rest =>
    if c₁ == '>' && isJsWhitespace c₂ then true else containsGtWs (c₂ :: rest)

/-- `const TRANSLATION_BATCH_SIZE = 100`. -/
def TRANSLATION_BATCH_SIZE : Nat := 100

/-- A target language descriptor `{ code, name, flag }`. -/
structure Language where
  code : String
  name : String
  flag : String
deriving Repr, DecidableEq

/-- The configured descriptor list `targetLanguages`. -/
def targetLanguages : List Language :=
  [⟨"en", "English", "🇺🇸"⟩, ⟨"es", "Español", "🇲🇽"⟩, ⟨"de", "Deutsch", "🇩🇪"⟩]

/-- `runTranslation(key)`: read `sourcePhrases[key] || ""`, call the
translation capability with source language `"en"` and the target language
code, and on success store the result (with `\>\s` collapsed) at `key`; a
rejected call is caught (`catch`) and logged, leaving the mapping unchanged.
The issued call is appended to the call log either way. -/
def runTranslation (tr : String → String → String → Option String)
    (sourcePhrases : Mapping) (langCode : String)
    (st : Mapping × List Call) (key : String) : Mapping × List Call :=
  let value := (lookupMap sourcePhrases key).getD ""
  match tr value "en" langCode with
  | some translated => (setKey st.1 key (replaceGtWs translated), st.2 ++ [(value, "en", langCode)])
  | none => (st.1, st.2 ++ [(value, "en", langCode)])

/-- `Promise.all(batch.map(runTranslation))`: every key of the batch receives
exactly one `runTranslation` call; the per-key property assignments target
pairwise distinct keys, so the single-threaded interleaving is equivalent to
processing the batch keys in order. -/
def processKeys (tr : String → String → String → Option String)
    (sourcePhrases : Mapping) (langCode : String)
    (st : Mapping × List Call) (ks : List String) : Mapping × List Call :=
  ks.foldl (runTranslation tr sourcePhrases langCode) st

/-- The consecutive chunks of size `TRANSLATION_BATCH_SIZE` that successive
`splice(0, TRANSLATION_BATCH_SIZE)` calls remove from a list. -/
def batches : List String → List (List String)
  | [] => []
  | x :: xs =>
    (x :: xs).take TRANSLATION_BATCH_SIZE :: batches ((x :: xs).drop TRANSLATION_BATCH_SIZE)
termination_by l => l.length
decreasing_by
  simp [TRANSLATION_BATCH_SIZE]
  omega

/-- The `while (missingPhrases.length)` loop: repeatedly splice off the first
`TRANSLATION_BATCH_SIZE` keys and await their translations jointly before the
next batch starts. -/
def translationLoop (tr : String → String → String → Option String)
    (sourcePhrases : Mapping) (langCode : String)
    (st : Mapping × List Call) (missing : List String) : Mapping × List Call :=
  match missing with
  | [] => st
  | x :: xs =>
    translationLoop tr sourcePhrases langCode
      (processKeys tr sourcePhrases langCode st ((x :: xs).take TRANSLATION_BATCH_SIZE))
      ((x :: xs).drop TRANSLATION_BATCH_SIZE)
termination_by missing.length
decreasing_by
  simp [TRANSLATION_BATCH_SIZE]
  omega

/-- The observable outcome of one reconciliation pass for a single
(source file, target language) pair. -/
structure PairResult where
  /-- The content of the persisted target locale file when the pass ends. -/
  persisted : Mapping
  /-- The in-memory `targetPhrases` object when the pass ends. -/
  targetPhrases : Mapping
  /-- The contents written to the target file by the pass, after the
  ensure-exists step, in order. -/
  writes : List Mapping
  /-- The computed `deletePhrases` list. -/
  toDelete : List String
  /-- The computed `missingPhrases` list. -/
  missing : List String
  /-- The translate calls issued, in issue order. -/
  calls : List Call
deriving Repr, DecidableEq

/-- The body of the inner `targetLanguages.forEach` callback of `main`, for
one (source file, target language) pair.  `targetFile` is the persisted
content of the target locale file before the pass (`none` when the file is
absent; `ensureLanguageFileExists` then creates it holding the empty
mapping).  Deletions are persisted immediately via `Bun.write`; the write of
the merged mapping after the translation loop is commented out in the
source, so `persisted` is not updated after translation. -/
def processPair (tr : String → String → String → Option String)
    (langCode : String) (sourcePhrases : Mapping)
    (targetFile : Option Mapping) : PairResult :=
  let ensured : Mapping := targetFile.getD []
  let targetPhrases := ensured
  let deletePhrases := difference (keys targetPhrases) (keys sourcePhrases)
  let afterDelete :=
    if deletePhrases.isEmpty then targetPhrases
    else deletePhrases.foldl eraseKey targetPhrases
  let persisted := if deletePhrases.isEmpty then ensured else afterDelete
  let writes : List Mapping := if deletePhrases.isEmpty then [] else [afterDelete]
  let missingPhrases := difference (keys sourcePhrases) (keys afterDelete)
  if missingPhrases.isEmpty then
    { persisted, targetPhrases := afterDelete, writes,
      toDelete := deletePhrases, missing := missingPhrases, calls := [] }
  else
    let res := translationLoop tr sourcePhrases langCode (afterDelete, []) missingPhrases
    { persisted, targetPhrases := res.1, writes,
      toDelete := deletePhrases, missing := missingPhrases, calls := res.2 }

/-- The `targetLanguages.forEach` loop of `main` for one source file:
a reconciliation pass runs for every configured descriptor (the source reads
`targetLanguages.forEach(async (targetLanguage) => ...)` with no filtering).
`targetFiles` gives the pre-pass persisted content per language code. -/
def mainPass (tr : String → String → String → Option String)
    (sourcePhrases : Mapping) (targetFiles : String → Option Mapping) :
    List (String × PairResult) :=
  targetLanguages.map (fun lang =>
    (lang.code, processPair tr lang.code sourcePhrases (targetFiles lang.code)))

/-- The JS `catch (_) {}` around `fs.mkdir`: any outcome becomes success. -/
def swallowError (r : Except String Unit) : Except String Unit :=
  match r with
  | Except.ok _ => Except.ok ()
  | Except.error _ => Except.ok ()

/-- `ensureLanguageFileExists(dir, file)`: when the directory is absent,
`fs.mkdir` runs inside `try`/`catch` (its failure is swallowed); when the
file is absent, `fs.writeFile(file, "{}")` runs with no `try`/`catch`.
`mkdirResult` and `writeFileResult` are the outcomes the storage layer would
produce for those two calls. -/
def ensureLanguageFileExists (dirExists fileExists : Bool)
    (mkdirResult writeFileResult : Except String Unit) : Except String Unit :=
  match (if !dirExists then swallowError mkdirResult else Except.ok ()) with
  | Except.error e => Except.error e
  | Except.ok _ => if !fileExists then writeFileResult else Except.ok ()

/-! ### Helper lemmas -/

theorem mem_dedupFirst {a : String} {l : List String} : a ∈ dedupFirst l ↔ a ∈ l := by
  induction l with
  | nil => simp [dedupFirst]
  | cons x xs ih =>
    rw [dedupFirst]
    simp only [List.mem_cons, List.mem_filter, ih]
    by_cases hax : a = x
    · simp [hax]
    · simp [hax]

theorem mem_difference {a : String} {xs ys : List String} :
    a ∈ difference xs ys ↔ a ∈ xs ∧ a ∉ ys := by
  rw [difference, mem_dedupFirst, List.mem_filter]
  simp

theorem lookupMap_setKey_self (m : Mapping) (k v : String) :
    lookupMap (setKey m k v) k = some v := by
  induction m with
  | nil => simp [setKey, lookupMap]
  | cons p rest ih =>
    obtain ⟨k₁, v₁⟩ := p
    by_cases h : k₁ = k <;> simp [setKey, lookupMap, h, ih]

theorem lookupMap_setKey_ne (m : Mapping) {k j : String} (v : String) (h : j ≠ k) :
    lookupMap (setKey m k v) j = lookupMap m j := by
  induction m with
  | nil => simp [setKey, lookupMap, Ne.symm h]
  | cons p rest ih =>
    obtain ⟨k₁, v₁⟩ := p
    by_cases h₁ : k₁ = k
    · subst h₁
      simp [setKey, lookupMap, Ne.symm h]
    · simp [setKey, lookupMap, h₁, ih]

theorem runTranslation_fst_some (tr : String → String → String → Option String)
    (sourcePhrases : Mapping) (langCode : String) (st : Mapping × List Call)
    (key t : String)
    (h : tr ((lookupMap sourcePhrases key).getD "") "en" langCode = some t) :
    (runTranslation tr sourcePhrases langCode st key).1 =
      setKey st.1 key (replaceGtWs t) := by
  simp [runTranslation, h]

theorem runTranslation_fst_none (tr : String → String → String → Option String)
    (sourcePhrases : Mapping) (langCode : String) (st : Mapping × List Call)
    (key : String)
    (h : tr ((lookupMap sourcePhrases key).getD "") "en" langCode = none) :
    (runTranslation tr sourcePhrases langCode st key).1 = st.1 := by
  simp [runTranslation, h]

theorem runTranslation_snd (tr : String → String → String → Option String)
    (sourcePhrases : Mapping) (langCode : String) (st : Mapping × List Call)
    (key : String) :
    (runTranslation tr sourcePhrases langCode st key).2 =
      st.2 ++ [((lookupMap sourcePhrases key).getD "", "en", langCode)] := by
  unfold runTranslation
  cases h : tr ((lookupMap sourcePhrases key).getD "") "en" langCode <;> simp [h]

theorem processKeys_cons (tr : String → String → String → Option String)
    (sourcePhrases : Mapping) (langCode : String) (st : Mapping × List Call)
    (x : String) (rest : List String) :
    processKeys tr sourcePhrases langCode st (x :: rest) =
      processKeys tr sourcePhrases langCode
        (runTranslation tr sourcePhrases langCode st x) rest := rfl

theorem processKeys_fst_of_notMem (tr : String → String → String → Option String)
    (sourcePhrases : Mapping) (langCode : String) {k : String} :
    ∀ (ks : List String) (st : Mapping × List Call), k ∉ ks →
    lookupMap (processKeys tr sourcePhrases langCode st ks).1 k = lookupMap st.1 k := by
  intro ks
  induction ks with
  | nil => intro st _; rfl
  | cons x rest ih =>
    intro st hk
    have hx : k ≠ x := fun hq => hk (hq ▸ List.mem_cons_self x rest)
    have hrest : k ∉ rest := fun hq => hk (List.mem_cons_of_mem x hq)
    rw [processKeys_cons, ih _ hrest]
    cases h : tr ((lookupMap sourcePhrases x).getD "") "en" langCode with
    | some t =>
      rw [runTranslation_fst_some _ _ _ _ _ _ h, lookupMap_setKey_ne _ _ hx]
    | none =>
      rw [runTranslation_fst_none _ _ _ _ _ h]

theorem processKeys_fst_of_mem (tr : String → String → String → Option String)
    (sourcePhrases : Mapping) (langCode : String) {k t : String}
    (htr : tr ((lookupMap sourcePhrases k).getD "") "en" langCode = some t) :
    ∀ (ks : List String) (st : Mapping × List Call), ks.Nodup → k ∈ ks →
    lookupMap (processKeys tr sourcePhrases langCode st ks).1 k =
      some (replaceGtWs t) := by
  intro ks
  induction ks with
  | nil => intro st _ hmem; cases hmem
  | cons x rest ih =>
    intro st hnd hmem
    rcases List.mem_cons.mp hmem with heq | hmem₁
    · subst heq
      have hrest : k ∉ rest := (List.nodup_cons.mp hnd).1
      rw [processKeys_cons, processKeys_fst_of_notMem _ _ _ _ _ hrest,
          runTranslation_fst_some _ _ _ _ _ _ htr, lookupMap_setKey_self]
    · rw [processKeys_cons]
      exact ih _ (List.nodup_cons.mp hnd).2 hmem₁

theorem processKeys_fst_none (tr : String → String → String → Option String)
    (sourcePhrases : Mapping) (langCode : String) {k : String}
    (htr : tr ((lookupMap sourcePhrases k).getD "") "en" langCode = none) :
    ∀ (ks : List String) (st : Mapping × List Call), lookupMap st.1 k = none →
    lookupMap (processKeys tr sourcePhrases langCode st ks).1 k = none := by
  intro ks
  induction ks with
  | nil => intro st h0; exact h0
  | cons x rest ih =>
    intro st h0
    rw [processKeys_cons]
    apply ih
    by_cases hx : x = k
    · subst hx
      rw [runTranslation_fst_none _ _ _ _ _ htr]
      exact h0
    · cases h : tr ((lookupMap sourcePhrases x).getD "") "en" langCode with
      | some t =>
        rw [runTranslation_fst_some _ _ _ _ _ _ h,
            lookupMap_setKey_ne _ _ (fun hq : k = x => hx hq.symm)]
        exact h0
      | none =>
        rw [runTranslation_fst_none _ _ _ _ _ h]
        exact h0

theorem processKeys_snd (tr : String → String → String → Option String)
    (sourcePhrases : Mapping) (langCode : String) :
    ∀ (ks : List String) (st : Mapping × List Call),
    (processKeys tr sourcePhrases langCode st ks).2 =
      st.2 ++ ks.map (fun k => ((lookupMap sourcePhrases k).getD "", "en", langCode)) := by
  intro ks
  induction ks with
  | nil => intro st; simp [processKeys]
  | cons x rest ih =>
    intro st
    rw [processKeys_cons, ih, runTranslation_snd]
    simp

theorem batches_length_le :
    ∀ (l : List String), ∀ b ∈ batches l, b.length ≤ TRANSLATION_BATCH_SIZE := by
  intro l
  induction l using batches.induct with
  | case1 => intro b hb; rw [batches] at hb; cases hb
  | case2 x xs ih =>
    intro b hb
    rw [batches] at hb
    rcases List.mem_cons.mp hb with heq | hmem
    · subst heq
      calc ((x :: xs).take TRANSLATION_BATCH_SIZE).length
          = min TRANSLATION_BATCH_SIZE (x :: xs).length := List.length_take _ _
        _ ≤ TRANSLATION_BATCH_SIZE := Nat.min_le_left _ _
    · exact ih b hmem

theorem batches_flatten :
    ∀ (l : List String), (batches l).flatten = l := by
  intro l
  induction l using batches.induct with
  | case1 => rw [batches]; rfl
  | case2 x xs ih =>
    rw [batches, List.flatten_cons, ih, List.take_append_drop]

theorem batches_length :
    ∀ (l : List String),
    (batches l).length =
      (l.length + TRANSLATION_BATCH_SIZE - 1) / TRANSLATION_BATCH_SIZE := by
  intro l
  induction l using batches.induct with
  | case1 => rw [batches]; rfl
  | case2 x xs ih =>
    rw [batches]
    simp only [TRANSLATION_BATCH_SIZE] at ih ⊢
    simp only [List.length_cons, ih, List.length_drop]
    omega

theorem translationLoop_eq_foldl (tr : String → String → String → Option String)
    (sourcePhrases : Mapping) (langCode : String) :
    ∀ (missing : List String) (st : Mapping × List Call),
    translationLoop tr sourcePhrases langCode st missing =
      (batches missing).foldl (processKeys tr sourcePhrases langCode) st := by
  intro missing
  induction missing using batches.induct with
  | case1 => intro st; rw [translationLoop, batches]; rfl
  | case2 x xs ih =>
    intro st
    rw [translationLoop, batches]
    exact ih _

theorem translationLoop_snd (tr : String → String → String → Option String)
    (sourcePhrases : Mapping) (langCode : String) :
    ∀ (missing : List String) (st : Mapping × List Call),
    (translationLoop tr sourcePhrases langCode st missing).2 =
      st.2 ++ missing.map (fun k => ((lookupMap sourcePhrases k).getD "", "en", langCode)) := by
  intro missing
  induction missing using batches.induct with
  | case1 => intro st; rw [translationLoop]; simp
  | case2 x xs ih =>
    intro st
    rw [translationLoop, ih, processKeys_snd, List.append_assoc, ← List.map_append,
        List.take_append_drop]

theorem collapseGt_of_not_containsGtWs :
    ∀ {l : List Char}, containsGtWs l = false → collapseGt l = l := by
  intro l
  induction l using collapseGt.induct with
  | case1 => intro _; rfl
  | case2 c => intro _; rfl
  | case3 c₁ c₂ rest hcond ih =>
    intro h
    rw [containsGtWs, if_pos hcond] at h
    cases h
  | case4 c₁ c₂ rest hcond ih =>
    intro h
    rw [containsGtWs, if_neg hcond] at h
    rw [collapseGt, if_neg hcond, ih h]

theorem translationLoop_nil (tr : String → String → String → Option String)
    (sourcePhrases : Mapping) (langCode : String) (st : Mapping × List Call) :
    translationLoop tr sourcePhrases langCode st [] = st := by
  rw [translationLoop]

theorem translationLoop_of_length_le (tr : String → String → String → Option String)
    (sourcePhrases : Mapping) (langCode : String) (st : Mapping × List Call)
    (missing : List String) (h : missing.length ≤ TRANSLATION_BATCH_SIZE) :
    translationLoop tr sourcePhrases langCode st missing =
      processKeys tr sourcePhrases langCode st missing := by
  cases missing with
  | nil => exact translationLoop_nil tr sourcePhrases langCode st
  | cons x xs =>
    rw [translationLoop, List.take_of_length_le h, List.drop_eq_nil_of_le h]
    exact translationLoop_nil tr sourcePhrases langCode _

theorem processPair_eq (tr : String → String → String → Option String)
    (langCode : String) (sourcePhrases : Mapping) (targetFile : Option Mapping) :
    processPair tr langCode sourcePhrases targetFile =
      { persisted :=
          if (difference (keys (targetFile.getD [])) (keys sourcePhrases)).isEmpty then
            targetFile.getD []
          else
            List.foldl eraseKey (targetFile.getD [])
              (difference (keys (targetFile.getD [])) (keys sourcePhrases)),
        targetPhrases :=
          (translationLoop tr sourcePhrases langCode
            (List.foldl eraseKey (targetFile.getD [])
              (difference (keys (targetFile.getD [])) (keys sourcePhrases)), [])
            (difference (keys sourcePhrases)
              (keys (List.foldl eraseKey (targetFile.getD [])
                (difference (keys (targetFile.getD [])) (keys sourcePhrases)))))).1,
        writes :=
          if (difference (keys (targetFile.getD [])) (keys sourcePhrases)).isEmpty then []
          else
            [List.foldl eraseKey (targetFile.getD [])
              (difference (keys (targetFile.getD [])) (keys sourcePhrases))],
        toDelete := difference (keys (targetFile.getD [])) (keys sourcePhrases),
        missing :=
          difference (keys sourcePhrases)
            (keys (List.foldl eraseKey (targetFile.getD [])
              (difference (keys (targetFile.getD [])) (keys sourcePhrases)))),
        calls :=
          (translationLoop tr sourcePhrases langCode
            (List.foldl eraseKey (targetFile.getD [])
              (difference (keys (targetFile.getD [])) (keys sourcePhrases)), [])
            (difference (keys sourcePhrases)
              (keys (List.foldl eraseKey (targetFile.getD [])
                (difference (keys (targetFile.getD [])) (keys sourcePhrases)))))).2 } := by
  unfold processPair
  dsimp only
  split_ifs with ha hb hc
  · rw [List.isEmpty_iff] at ha hb
    simp [ha, hb, translationLoop_nil]
  · rw [List.isEmpty_iff] at ha
    simp [ha]
  · rw [List.isEmpty_iff] at hc
    simp [hc, translationLoop_nil]
  · rfl

/-! ### Claim theorems -/

/-- Claim C6: for every source mapping and target mapping, the computed deletion
set (`difference (keys target) (keys source)`, the code's `deletePhrases`)
is exactly the set of keys present in the target but absent from the source,
and the computed missing set (`difference (keys source) (keys target)`, the
code's `missingPhrases`) is exactly the set of keys present in the source
but absent from the target. -/
theorem C6_diff_sets_are_set_differences (source target : Mapping) (k : String) :
    (k ∈ difference (keys target) (keys source) ↔
      k ∈ keys target ∧ k ∉ keys source) ∧
    (k ∈ difference (keys source) (keys target) ↔
      k ∈ keys source ∧ k ∉ keys target) :=
  ⟨mem_difference, mem_difference⟩

/-- Claim C7: the batching loop partitions the missing-key list in order into
consecutive batches of at most `TRANSLATION_BATCH_SIZE` (100) keys, processes
the batches strictly in sequence (the loop is the left fold of whole-batch
processing over the batch list, so batch N+1 starts only after batch N has
fully drained), and terminates after `⌈length / TRANSLATION_BATCH_SIZE⌉`
iterations (one fold step per batch). -/
theorem C7_batch_partitioning (tr : String → String → String → Option String)
    (sourcePhrases : Mapping) (langCode : String)
    (st : Mapping × List Call) (missing : List String) :
    translationLoop tr sourcePhrases langCode st missing =
      (batches missing).foldl (processKeys tr sourcePhrases langCode) st ∧
    (∀ b ∈ batches missing, b.length ≤ TRANSLATION_BATCH_SIZE) ∧
    (batches missing).flatten = missing ∧
    (batches missing).length =
      (missing.length + TRANSLATION_BATCH_SIZE - 1) / TRANSLATION_BATCH_SIZE :=
  ⟨translationLoop_eq_foldl tr sourcePhrases langCode missing st,
   batches_length_le missing, batches_flatten missing, batches_length missing⟩

/-- Witness for claim C7 at a concrete input. -/
theorem C7_batch_partitioning_witness :
    translationLoop (fun text _ _ => some text) [("a", "A")] "es" ([], []) ["a"] =
      (batches ["a"]).foldl
        (processKeys (fun text _ _ => some text) [("a", "A")] "es") ([], []) ∧
    (∀ b ∈ batches ["a"], b.length ≤ TRANSLATION_BATCH_SIZE) ∧
    (batches ["a"]).flatten = ["a"] ∧
    (batches ["a"]).length =
      ((["a"] : List String).length + TRANSLATION_BATCH_SIZE - 1) / TRANSLATION_BATCH_SIZE :=
  C7_batch_partitioning (fun text _ _ => some text) [("a", "A")] "es" ([], []) ["a"]

/-- Claim C10: during one reconciliation pass, the list of translate calls issued
is exactly one call per key of the computed missing set, in order, each with
arguments (the key's source value, or `""` when absent/falsy; source
language `"en"`; the target language code); in particular no call is issued
for any key outside the missing set. -/
theorem C10_calls_match_missing_set (tr : String → String → String → Option String)
    (langCode : String) (sourcePhrases : Mapping) (targetFile : Option Mapping) :
    (processPair tr langCode sourcePhrases targetFile).calls =
      (processPair tr langCode sourcePhrases targetFile).missing.map
        (fun k => ((lookupMap sourcePhrases k).getD "", "en", langCode)) := by
  rw [processPair_eq]
  simp [translationLoop_snd]

/-- Counterexample for claim C9: when the directory exists but the file is absent and
the `fs.writeFile` creating the initial empty mapping fails, the failure
propagates out of `ensureLanguageFileExists` — it is not swallowed. -/
theorem C9_counterexample :
    ensureLanguageFileExists true false (Except.ok ()) (Except.error "IOError") =
      Except.error "IOError" := rfl

/-- Claim C9 (amended): only the directory-creation failure is swallowed — the
result of `ensureLanguageFileExists` never depends on the `fs.mkdir`
outcome — while the `fs.writeFile` call creating the initial empty-mapping
file is unguarded, so its outcome is returned whenever the file is absent. -/
theorem C9_amended_mkdir_swallowed_writeFile_propagates
    (dirExists fileExists : Bool) (mkdirResult writeFileResult : Except String Unit) :
    ensureLanguageFileExists dirExists fileExists mkdirResult writeFileResult =
      if fileExists then Except.ok () else writeFileResult := by
  cases dirExists <;> cases fileExists <;> cases mkdirResult <;>
    simp [ensureLanguageFileExists, swallowError]

/-- Claim C8: when both the deletion set and the missing set of a
(file, language) pair are empty, the pass issues no translate call and
performs no write beyond the ensure-exists step, so the persisted target
file content is unchanged by the pass. -/
theorem C8_no_work_when_sets_empty (tr : String → String → String → Option String)
    (langCode : String) (sourcePhrases : Mapping) (targetFile : Option Mapping)
    (hdel : difference (keys (targetFile.getD [])) (keys sourcePhrases) = [])
    (hmiss : difference (keys sourcePhrases) (keys (targetFile.getD [])) = []) :
    (processPair tr langCode sourcePhrases targetFile).calls = [] ∧
    (processPair tr langCode sourcePhrases targetFile).writes = [] ∧
    (processPair tr langCode sourcePhrases targetFile).persisted =
      targetFile.getD [] := by
  rw [processPair_eq]
  simp [hdel, hmiss, translationLoop_nil]

/-- Witness for claim C8 at a concrete input. -/
theorem C8_no_work_when_sets_empty_witness :
    (processPair (fun text _ _ => some text) "es" [("a", "A")]
      (some [("a", "x")])).calls = [] ∧
    (processPair (fun text _ _ => some text) "es" [("a", "A")]
      (some [("a", "x")])).writes = [] ∧
    (processPair (fun text _ _ => some text) "es" [("a", "A")]
      (some [("a", "x")])).persisted = (some [("a", "x")] : Option Mapping).getD [] :=
  C8_no_work_when_sets_empty (fun text _ _ => some text) "es" [("a", "A")]
    (some [("a", "x")]) (by decide) (by decide)

/-- Claim C5: if `translate` rejects for the source value of key `k` but
succeeds for every other key of the same batch, then after the batch is
processed every other key of the batch is present in the in-memory target
mapping with its (normalized) translated value, while `k` is absent
(provided it was absent before, as every missing key is); no exception
escapes — `runTranslation` catches the per-key failure, so batch processing
is a total function by construction. -/
theorem C5_batch_failure_isolation (tr : String → String → String → Option String)
    (sourcePhrases : Mapping) (langCode : String) (tp : Mapping)
    (batch : List String) (k : String)
    (hnd : batch.Nodup) (_hk : k ∈ batch)
    (hfail : tr ((lookupMap sourcePhrases k).getD "") "en" langCode = none)
    (habsent : lookupMap tp k = none) :
    (∀ j ∈ batch, j ≠ k →
      ∀ t, tr ((lookupMap sourcePhrases j).getD "") "en" langCode = some t →
        lookupMap (processKeys tr sourcePhrases langCode (tp, []) batch).1 j =
          some (replaceGtWs t)) ∧
    lookupMap (processKeys tr sourcePhrases langCode (tp, []) batch).1 k = none := by
  refine ⟨fun j hj _ t ht => ?_, ?_⟩
  · exact processKeys_fst_of_mem tr sourcePhrases langCode ht batch (tp, []) hnd hj
  · exact processKeys_fst_none tr sourcePhrases langCode hfail batch (tp, []) habsent

/-- Witness for claim C5 at a concrete input: `translate` fails for the
value of key `b` and succeeds for key `a`. -/
theorem C5_batch_failure_isolation_witness :
    lookupMap (processKeys (fun text _ _ => if text = "B" then none else some text)
      [("a", "A"), ("b", "B")] "es" ([], []) ["a", "b"]).1 "a" =
      some (replaceGtWs "A") ∧
    lookupMap (processKeys (fun text _ _ => if text = "B" then none else some text)
      [("a", "A"), ("b", "B")] "es" ([], []) ["a", "b"]).1 "b" = none :=
  ⟨(C5_batch_failure_isolation (fun text _ _ => if text = "B" then none else some text)
      [("a", "A"), ("b", "B")] "es" [] ["a", "b"] "b"
      (by decide) (by decide) (by decide) (by decide)).1
      "a" (by decide) (by decide) "A" (by decide),
   (C5_batch_failure_isolation (fun text _ _ => if text = "B" then none else some text)
      [("a", "A"), ("b", "B")] "es" [] ["a", "b"] "b"
      (by decide) (by decide) (by decide) (by decide)).2⟩

/-- Counterexample for claim C3: the translated value `">\tb"` does not
contain the two-character sequence `"> "` (right-angle-bracket + single
space), yet it is not stored unchanged — the regex class `\s` also matches
the tab, so the stored value is `">b"`. -/
theorem C3_counterexample :
    containsGtSpace ">\tb" = false ∧
    replaceGtWs ">\tb" = ">b" ∧
    replaceGtWs ">\tb" ≠ ">\tb" := by
  refine ⟨by decide, by decide, by decide⟩

/-- Claim C3 (amended): every successfully translated value is stored as the
translated text with each occurrence of a right-angle-bracket followed by
one whitespace character (the JS `\s` class, not only the single space)
collapsed to the bracket alone; any translated value not containing a
right-angle-bracket immediately followed by a whitespace character is
stored unchanged. -/
theorem C3_amended_normalization_law (tr : String → String → String → Option String)
    (sourcePhrases : Mapping) (langCode : String) (st : Mapping × List Call)
    (key translated : String)
    (h : tr ((lookupMap sourcePhrases key).getD "") "en" langCode = some translated) :
    lookupMap (runTranslation tr sourcePhrases langCode st key).1 key =
      some (replaceGtWs translated) ∧
    (containsGtWs translated.data = false → replaceGtWs translated = translated) := by
  constructor
  · rw [runTranslation_fst_some tr sourcePhrases langCode st key translated h,
        lookupMap_setKey_self]
  · intro hno
    rw [replaceGtWs, collapseGt_of_not_containsGtWs hno]

/-- Witness for claim C3 (amended) at a concrete input. -/
theorem C3_amended_normalization_law_witness :
    lookupMap (runTranslation (fun _ _ _ => some "a> b") [("k", "Hello")] "es"
      ([], []) "k").1 "k" = some (replaceGtWs "a> b") ∧
    replaceGtWs "Hola" = "Hola" :=
  ⟨(C3_amended_normalization_law (fun _ _ _ => some "a> b") [("k", "Hello")] "es"
      ([], []) "k" "a> b" rfl).1,
   (C3_amended_normalization_law (fun _ _ _ => some "Hola") [("k", "Hello")] "es"
      ([], []) "k" "Hola" rfl).2 (by decide)⟩

/-- Counterexample for claim C4: the orchestrator iterates over every
configured descriptor with no exclusion of the source language — the
processed language codes are exactly `["en", "es", "de"]`, so a
reconciliation pass (ensure, read, diff) is performed for `"en"` as well;
indeed the `"en"` pass computes a non-empty missing set from its inputs. -/
theorem C4_counterexample :
    (mainPass (fun text _ _ => some text) [("x", "X")] (fun _ => some [])).map
      Prod.fst = ["en", "es", "de"] ∧
    (processPair (fun text _ _ => some text) "en" [("x", "X")] (some [])).missing =
      ["x"] := by
  refine ⟨by decide, by decide⟩

/-- Claim C4 (amended): the orchestrator's inner loop processes every
configured target language descriptor including the source language `"en"`
(the source performs `targetLanguages.forEach` with no filter), so a
reconciliation pass runs for `"en"` whenever it appears in the configured
set. -/
theorem C4_amended_all_languages_processed
    (tr : String → String → String → Option String)
    (sourcePhrases : Mapping) (targetFiles : String → Option Mapping) :
    (mainPass tr sourcePhrases targetFiles).map Prod.fst =
      targetLanguages.map Language.code := rfl

/-- Claim C1 is a code bug: with source `{"hello": "Hello"}`, an absent
target file and an always-succeeding translation capability, the pass
translates `"hello"` into the in-memory mapping, but the write of the
merged mapping back to the target file is commented out in the source, so
the persisted target file still holds the empty mapping created by
ensure-exists and its key set differs from the source key set. -/
theorem C1_persisted_key_set_diverges :
    (processPair (fun text _ _ => some text) "es" [("hello", "Hello")]
      none).persisted = [] ∧
    (processPair (fun text _ _ => some text) "es" [("hello", "Hello")]
      none).targetPhrases = [("hello", "Hello")] ∧
    keys (processPair (fun text _ _ => some text) "es" [("hello", "Hello")]
      none).persisted ≠ keys [("hello", "Hello")] := by
  rw [processPair_eq]
  rw [translationLoop_of_length_le]
  · refine ⟨by decide, by decide, by decide⟩
  · decide

/-- Claim C2 is a code bug: with source `{"a": "A", "b": "B"}` and persisted
target `{"a": "x"}`, the missing key `"b"` is resolved into the in-memory
mapping, but the final merged mapping is never persisted (the write after
the translation loop is commented out in the source): the pass performs no
write at all and the persisted file still lacks `"b"`. -/
theorem C2_merged_mapping_not_persisted :
    (processPair (fun text _ _ => some text) "de" [("a", "A"), ("b", "B")]
      (some [("a", "x")])).targetPhrases = [("a", "x"), ("b", "B")] ∧
    (processPair (fun text _ _ => some text) "de" [("a", "A"), ("b", "B")]
      (some [("a", "x")])).persisted = [("a", "x")] ∧
    (processPair (fun text _ _ => some text) "de" [("a", "A"), ("b", "B")]
      (some [("a", "x")])).writes = [] := by
  rw [processPair_eq]
  rw [translationLoop_of_length_le]
  · refine ⟨by decide, by decide, by decide⟩
  · decide

end TranslateBun
